import Mathlib

/-!
# TangoLint VS Code extension — verified model

A shallow embedding of the diagnostic-synchronization pipeline of the
TangoLint VS Code extension (`extension.js`): the output parser, the
rule-configuration mapper, the linter-path resolver, the lint runner with
its completion handler, the per-document debounce machinery, and the
diagnostic store, together with theorems about them.

Conventions of the embedding:
* JavaScript strings are Lean `String`s; per-character reasoning uses
  `String.data : List Char`.
* JavaScript numbers that hold line/column values are `Int` (so that
  `parseInt(s) - 1` can genuinely go negative before `Math.max 0 _`).
* The filesystem (`fs.existsSync`), the configuration store
  (`workspace.getConfiguration`), the deployed-script path and the
  workspace folder are explicit parameters.
* Fallible operations return `Option`.
-/

namespace Tangolint

/-! ## Characters and character classes used by `ISSUE_RE`

`ISSUE_RE = /^(.*):(\d+):(\d+): (error|warning|info): ([A-Z]\d+) (.+)$/`

`\d` is `[0-9]`; `[A-Z]` is the ASCII uppercase range; `.` is any character
other than a JavaScript line terminator (LF, CR, LS, PS).
-/

def isDigitChar (c : Char) : Bool := c.isDigit

def isUpperChar (c : Char) : Bool := 'A' ≤ c && c ≤ 'Z'

def isDotChar (c : Char) : Bool :=
  c ≠ '\n' && c ≠ '\r' && c ≠ '\u2028' && c ≠ '\u2029'

/-- `parseInt(s, 10)` on a string of decimal digits. -/
def digitsToNat (ds : List Char) : Nat :=
  ds.foldl (fun acc c => 10 * acc + (c.toNat - '0'.toNat)) 0

/-! ## The match object of `ISSUE_RE`

Capture groups 2–6 of the regex (the path group 1 is discarded by
`parseOutput`, which destructures `[, , lineStr, colStr, severity, code,
message]`). -/

structure IssueMatch where
  lineStr : List Char
  colStr : List Char
  severity : String
  codeHead : Char
  codeDigits : List Char
  message : List Char
deriving DecidableEq

/-- The alternation `(error|warning|info)`, tried left to right as the JS
regex engine does; returns the matched token and the rest of the input. -/
def parseSeverity (cs : List Char) : Option (String × List Char) :=
  match cs with
  | 'e' :: 'r' :: 'r' :: 'o' :: 'r' :: rest => some ("error", rest)
  | 'w' :: 'a' :: 'r' :: 'n' :: 'i' :: 'n' :: 'g' :: rest => some ("warning", rest)
  | 'i' :: 'n' :: 'f' :: 'o' :: rest => some ("info", rest)
  | _ => none

/-- The greedy `\d+` atom followed by a non-digit literal: take the maximal
digit run (backtracking a greedy `\d+` can never help, because any shorter
run still faces a digit next); fail when the run is empty. -/
def splitDigits (cs : List Char) : Option (List Char × List Char) :=
  if (cs.takeWhile isDigitChar).isEmpty then none
  else some (cs.takeWhile isDigitChar, cs.dropWhile isDigitChar)

/-- A literal character of the pattern. -/
def expectChar (c : Char) : List Char → Option (List Char)
  | x :: rest => if x = c then some rest else none
  | [] => none

/-- The `[A-Z]` character class. -/
def expectUpper : List Char → Option (Char × List Char)
  | x :: rest => if isUpperChar x then some (x, rest) else none
  | [] => none

/-- Match `(\d+):(\d+): (error|warning|info): ([A-Z]\d+) (.+)$` against the
text that follows the first captured `:` separator. -/
def parseTail (cs : List Char) : Option IssueMatch :=
  (splitDigits cs).bind fun (d1, r1) =>
  (expectChar ':' r1).bind fun r2 =>
  (splitDigits r2).bind fun (d2, r3) =>
  (expectChar ':' r3).bind fun r4 =>
  (expectChar ' ' r4).bind fun r5 =>
  (parseSeverity r5).bind fun (sev, r6) =>
  (expectChar ':' r6).bind fun r7 =>
  (expectChar ' ' r7).bind fun r8 =>
  (expectUpper r8).bind fun (c, r9) =>
  (splitDigits r9).bind fun (d3, r10) =>
  (expectChar ' ' r10).bind fun msg =>
  if msg.isEmpty then none
  else if msg.all isDotChar then some ⟨d1, d2, sev, c, d3, msg⟩
  else none

/-- All ways to split `cs` as `p ++ ':' :: r`, ordered by increasing
length of `p`. -/
def colonSplits (cs : List Char) : List (List Char × List Char) :=
  match cs with
  | [] => []
  | c :: rest =>
    (if c = ':' then [(([] : List Char), rest)] else []) ++
    (colonSplits rest).map (fun pr => (c :: pr.1, pr.2))

/-- `line.match(ISSUE_RE)`.  The leading `(.*)` is greedy, so the engine
tries the rightmost `:` split first and backtracks leftwards; the first
split whose prefix consists of `.`-characters and whose tail matches the
rest of the pattern wins. -/
def matchLine (line : List Char) : Option IssueMatch :=
  ((colonSplits line).reverse).findSome? fun pr =>
    if pr.1.all isDotChar then parseTail pr.2 else none

/-! ## Diagnostics -/

inductive DiagnosticSeverity where
  | error
  | warning
  | information
deriving DecidableEq

/-- A VS Code diagnostic as populated by `parseOutput`: the `Range`
flattened to its four coordinates, plus severity, message, `source` and
`code`. -/
structure Diagnostic where
  startLine : Int
  startCol : Int
  endLine : Int
  endCol : Int
  severity : DiagnosticSeverity
  message : String
  source : String
  code : String
deriving DecidableEq

/-- `toVSCodeSeverity` (`extension.js`): `switch` on the severity token. -/
def toVSCodeSeverity (severity : String) : DiagnosticSeverity :=
  match severity with
  | "error" => .error
  | "warning" => .warning
  | _ => .information

/-- The diagnostic built from one regex match in the body of the
`parseOutput` loop. -/
def mkDiagnostic (m : IssueMatch) : Diagnostic :=
  let lineNum : Int := max 0 ((digitsToNat m.lineStr : Int) - 1)
  let colNum : Int := max 0 ((digitsToNat m.colStr : Int))
  let codeStr : String := String.mk (m.codeHead :: m.codeDigits)
  { startLine := lineNum
    startCol := colNum
    endLine := lineNum
    endCol := 9999
    severity := toVSCodeSeverity m.severity
    message := codeStr ++ ": " ++ String.mk m.message
    source := "tangolint"
    code := codeStr }

/-- The diagnostics one line of stdout contributes: one if it matches
`ISSUE_RE`, none otherwise (`if (!m) continue`). -/
def lineDiagnostics (line : List Char) : List Diagnostic :=
  match matchLine line with
  | some m => [mkDiagnostic m]
  | none => []

/-- `stdout.split('\n')`: split a character sequence at every `'\n'`,
keeping empty segments (JavaScript `String.prototype.split` semantics). -/
def splitLines (cs : List Char) : List (List Char) :=
  match cs with
  | [] => [[]]
  | c :: rest =>
    if c = '\n' then [] :: splitLines rest
    else
      match splitLines rest with
      | l :: ls => (c :: l) :: ls
      | [] => [[c]]

/-- `parseOutput` (`extension.js`): split stdout on `'\n'` and collect the
per-line diagnostics in order. -/
def parseOutput (stdout : String) : List Diagnostic :=
  ((splitLines stdout.data).map lineDiagnostics).flatten

/-! ## The line grammar, declaratively

`MatchesGrammar line` says that `line` decomposes as
`<path>:<line>:<col>: <severity>: <code> <message>` in the sense of
`ISSUE_RE`, with no reference to the matching algorithm. -/

def MatchesGrammar (line : List Char) : Prop :=
  ∃ (p d1 d2 : List Char) (sev : String) (c : Char) (d3 msg : List Char),
    line = p ++ [':'] ++ d1 ++ [':'] ++ d2 ++ [':', ' '] ++ sev.data ++
        [':', ' '] ++ [c] ++ d3 ++ [' '] ++ msg ∧
    p.all isDotChar = true ∧
    d1 ≠ [] ∧ d1.all isDigitChar = true ∧
    d2 ≠ [] ∧ d2.all isDigitChar = true ∧
    (sev = "error" ∨ sev = "warning" ∨ sev = "info") ∧
    isUpperChar c = true ∧
    d3 ≠ [] ∧ d3.all isDigitChar = true ∧
    msg ≠ [] ∧ msg.all isDotChar = true

/-! ## Soundness and completeness of the matcher w.r.t. the grammar -/

theorem colonSplits_sound {cs : List Char} {pr : List Char × List Char}
    (h : pr ∈ colonSplits cs) : cs = pr.1 ++ ':' :: pr.2 := by
  induction cs generalizing pr with
  | nil => simp [colonSplits] at h
  | cons c rest ih =>
    rw [colonSplits] at h
    rcases List.mem_append.mp h with h1 | h2
    · by_cases hc : c = ':'
      · subst hc
        simp only [if_true, List.mem_singleton, if_pos] at h1
        subst h1
        rfl
      · simp [hc] at h1
    · obtain ⟨pr', hpr', hq⟩ := List.mem_map.mp h2
      subst hq
      simpa using congrArg (c :: ·) (ih hpr')

theorem colonSplits_complete (p r : List Char) :
    (p, r) ∈ colonSplits (p ++ ':' :: r) := by
  induction p with
  | nil => simp [colonSplits]
  | cons c p ih =>
    rw [List.cons_append, colonSplits]
    exact List.mem_append.mpr (Or.inr (List.mem_map.mpr ⟨(p, r), ih, rfl⟩))

theorem takeWhile_append_run {α : Type} {p : α → Bool} {l : List α} {c : α}
    (hl : l.all p = true) (hc : p c = false) (r : List α) :
    (l ++ c :: r).takeWhile p = l ∧ (l ++ c :: r).dropWhile p = c :: r := by
  induction l with
  | nil => simp [List.takeWhile, List.dropWhile, hc]
  | cons a l ih =>
    rw [List.all_cons, Bool.and_eq_true] at hl
    obtain ⟨ha, hl⟩ := hl
    obtain ⟨iht, ihd⟩ := ih hl
    constructor
    · simpa [List.takeWhile_cons, ha] using iht
    · simpa [List.dropWhile_cons, ha] using ihd

theorem splitDigits_sound {cs : List Char} {d r : List Char}
    (h : splitDigits cs = some (d, r)) :
    cs = d ++ r ∧ d ≠ [] ∧ d.all isDigitChar = true := by
  unfold splitDigits at h
  split at h
  · cases h
  next hne =>
    rw [Option.some.injEq, Prod.mk.injEq] at h
    obtain ⟨rfl, rfl⟩ := h
    refine ⟨(List.takeWhile_append_dropWhile _ _).symm, ?_, ?_⟩
    · simpa using hne
    · exact List.all_eq_true.mpr fun x hx => List.mem_takeWhile_imp hx

theorem splitDigits_run {d : List Char} (hd : d.all isDigitChar = true)
    (hne : d ≠ []) (c : Char) (hc : isDigitChar c = false) (r : List Char) :
    splitDigits (d ++ c :: r) = some (d, c :: r) := by
  obtain ⟨ht, hdrop⟩ := takeWhile_append_run hd hc r
  simp [splitDigits, ht, hdrop, List.isEmpty_eq_false.mpr hne]

theorem expectChar_sound {c : Char} {cs r : List Char}
    (h : expectChar c cs = some r) : cs = c :: r := by
  cases cs with
  | nil => cases h
  | cons x rest =>
    rw [expectChar] at h
    split at h
    · next hx =>
      rw [Option.some.injEq] at h
      rw [hx, h]
    · cases h

theorem expectChar_cons (c : Char) (r : List Char) :
    expectChar c (c :: r) = some r := by
  simp [expectChar]

theorem expectUpper_sound {cs : List Char} {c : Char} {r : List Char}
    (h : expectUpper cs = some (c, r)) :
    cs = c :: r ∧ isUpperChar c = true := by
  cases cs with
  | nil => cases h
  | cons x rest =>
    rw [expectUpper] at h
    split at h
    · next hx =>
      rw [Option.some.injEq, Prod.mk.injEq] at h
      obtain ⟨rfl, rfl⟩ := h
      exact ⟨rfl, hx⟩
    · cases h

theorem expectUpper_cons {c : Char} (hc : isUpperChar c = true)
    (r : List Char) : expectUpper (c :: r) = some (c, r) := by
  simp [expectUpper, hc]

theorem parseSeverity_sound {cs : List Char} {sev : String} {rest : List Char}
    (h : parseSeverity cs = some (sev, rest)) :
    cs = sev.data ++ rest ∧ (sev = "error" ∨ sev = "warning" ∨ sev = "info") := by
  unfold parseSeverity at h
  split at h
  · rw [Option.some.injEq, Prod.mk.injEq] at h
    obtain ⟨rfl, rfl⟩ := h
    exact ⟨rfl, Or.inl rfl⟩
  · rw [Option.some.injEq, Prod.mk.injEq] at h
    obtain ⟨rfl, rfl⟩ := h
    exact ⟨rfl, Or.inr (Or.inl rfl)⟩
  · rw [Option.some.injEq, Prod.mk.injEq] at h
    obtain ⟨rfl, rfl⟩ := h
    exact ⟨rfl, Or.inr (Or.inr rfl)⟩
  · cases h

theorem parseSeverity_complete {sev : String}
    (h : sev = "error" ∨ sev = "warning" ∨ sev = "info") (rest : List Char) :
    parseSeverity (sev.data ++ rest) = some (sev, rest) := by
  rcases h with rfl | rfl | rfl <;> rfl

theorem parseTail_sound {cs : List Char} {m : IssueMatch}
    (h : parseTail cs = some m) :
    cs = m.lineStr ++ [':'] ++ m.colStr ++ [':', ' '] ++ m.severity.data ++
        [':', ' '] ++ [m.codeHead] ++ m.codeDigits ++ [' '] ++ m.message ∧
      m.lineStr ≠ [] ∧ m.lineStr.all isDigitChar = true ∧
      m.colStr ≠ [] ∧ m.colStr.all isDigitChar = true ∧
      (m.severity = "error" ∨ m.severity = "warning" ∨ m.severity = "info") ∧
      isUpperChar m.codeHead = true ∧
      m.codeDigits ≠ [] ∧ m.codeDigits.all isDigitChar = true ∧
      m.message ≠ [] ∧ m.message.all isDotChar = true := by
  unfold parseTail at h
  rw [Option.bind_eq_some] at h
  obtain ⟨⟨d1, r1⟩, h1, h⟩ := h
  try dsimp only at h
  rw [Option.bind_eq_some] at h
  obtain ⟨r2, h2, h⟩ := h
  try dsimp only at h
  rw [Option.bind_eq_some] at h
  obtain ⟨⟨d2, r3⟩, h3, h⟩ := h
  try dsimp only at h
  rw [Option.bind_eq_some] at h
  obtain ⟨r4, h4, h⟩ := h
  try dsimp only at h
  rw [Option.bind_eq_some] at h
  obtain ⟨r5, h5, h⟩ := h
  try dsimp only at h
  rw [Option.bind_eq_some] at h
  obtain ⟨⟨sev, r6⟩, h6, h⟩ := h
  try dsimp only at h
  rw [Option.bind_eq_some] at h
  obtain ⟨r7, h7, h⟩ := h
  try dsimp only at h
  rw [Option.bind_eq_some] at h
  obtain ⟨r8, h8, h⟩ := h
  try dsimp only at h
  rw [Option.bind_eq_some] at h
  obtain ⟨⟨c, r9⟩, h9, h⟩ := h
  try dsimp only at h
  rw [Option.bind_eq_some] at h
  obtain ⟨⟨d3, r10⟩, h10, h⟩ := h
  try dsimp only at h
  rw [Option.bind_eq_some] at h
  obtain ⟨msg, h11, h⟩ := h
  try dsimp only at h
  obtain ⟨e1, hd1ne, hd1all⟩ := splitDigits_sound h1
  have e2 := expectChar_sound h2
  obtain ⟨e3, hd2ne, hd2all⟩ := splitDigits_sound h3
  have e4 := expectChar_sound h4
  have e5 := expectChar_sound h5
  obtain ⟨e6, hsevs⟩ := parseSeverity_sound h6
  have e7 := expectChar_sound h7
  have e8 := expectChar_sound h8
  obtain ⟨e9, hup⟩ := expectUpper_sound h9
  obtain ⟨e10, hd3ne, hd3all⟩ := splitDigits_sound h10
  have e11 := expectChar_sound h11
  split at h
  · cases h
  next hmsgne =>
  split at h
  · next hmsgall =>
    obtain rfl := (Option.some.injEq _ _).mp h
    refine ⟨?_, hd1ne, hd1all, hd2ne, hd2all, hsevs, hup, hd3ne, hd3all,
      ?_, hmsgall⟩
    · rw [e1, e2, e3, e4, e5, e6, e7, e8, e9, e10, e11]
      simp
    · simpa using hmsgne
  · cases h

theorem parseTail_complete {d1 d2 : List Char} {sev : String} {c : Char}
    {d3 msg : List Char}
    (h1 : d1 ≠ []) (h2 : d1.all isDigitChar = true)
    (h3 : d2 ≠ []) (h4 : d2.all isDigitChar = true)
    (h5 : sev = "error" ∨ sev = "warning" ∨ sev = "info")
    (h6 : isUpperChar c = true)
    (h7 : d3 ≠ []) (h8 : d3.all isDigitChar = true)
    (h9 : msg ≠ []) (h10 : msg.all isDotChar = true) :
    parseTail (d1 ++ ':' :: (d2 ++ ':' :: ' ' ::
        (sev.data ++ ':' :: ' ' :: c :: (d3 ++ ' ' :: msg))))
      = some ⟨d1, d2, sev, c, d3, msg⟩ := by
  simp only [parseTail, splitDigits_run h2 h1 ':' (by decide),
    splitDigits_run h4 h3 ':' (by decide), splitDigits_run h8 h7 ' ' (by decide),
    expectChar_cons, parseSeverity_complete h5, expectUpper_cons h6,
    Option.some_bind, List.isEmpty_eq_false.mpr h9, h10,
    Bool.false_eq_true, if_false, if_true]

theorem findSome?_isSome_of_mem {α β : Type} {f : α → Option β} {l : List α}
    {a : α} (ha : a ∈ l) {b : β} (hb : f a = some b) :
    (l.findSome? f).isSome = true := by
  induction l with
  | nil => cases ha
  | cons x xs ih =>
    rw [List.findSome?_cons]
    cases hx : f x with
    | some y => simp
    | none =>
      rcases List.mem_cons.mp ha with rfl | hmem
      · rw [hb] at hx; cases hx
      · exact ih hmem

/-- Soundness of `matchLine`: a successful match exhibits a grammar
decomposition of the line, and the captured groups satisfy the per-group
character classes. -/
theorem matchLine_sound {line : List Char} {m : IssueMatch}
    (h : matchLine line = some m) :
    MatchesGrammar line ∧
      m.lineStr ≠ [] ∧ m.lineStr.all isDigitChar = true ∧
      m.colStr ≠ [] ∧ m.colStr.all isDigitChar = true ∧
      (m.severity = "error" ∨ m.severity = "warning" ∨ m.severity = "info") ∧
      isUpperChar m.codeHead = true ∧
      m.codeDigits ≠ [] ∧ m.codeDigits.all isDigitChar = true ∧
      m.message ≠ [] ∧ m.message.all isDotChar = true := by
  obtain ⟨pr, hmem, hpr⟩ := List.exists_of_findSome?_eq_some h
  rw [List.mem_reverse] at hmem
  have hdec := colonSplits_sound hmem
  by_cases hdot : pr.1.all isDotChar
  · rw [if_pos hdot] at hpr
    obtain ⟨heq, props⟩ := parseTail_sound hpr
    refine ⟨⟨pr.1, m.lineStr, m.colStr, m.severity, m.codeHead, m.codeDigits,
      m.message, ?_, hdot, props⟩, props⟩
    rw [hdec, heq]
    simp
  · rw [if_neg hdot] at hpr
    cases hpr

/-- Completeness of `matchLine`: a line that satisfies the grammar is
matched. -/
theorem matchLine_complete {line : List Char} (h : MatchesGrammar line) :
    (matchLine line).isSome = true := by
  obtain ⟨p, d1, d2, sev, c, d3, msg, heq, hdot, h1, h2, h3, h4, h5, h6, h7,
    h8, h9, h10⟩ := h
  have htail := parseTail_complete h1 h2 h3 h4 h5 h6 h7 h8 h9 h10
  have heq' : line = p ++ ':' :: (d1 ++ ':' :: (d2 ++ ':' :: ' ' ::
      (sev.data ++ ':' :: ' ' :: c :: (d3 ++ ' ' :: msg)))) := by
    rw [heq]; simp
  have hmem : (p, d1 ++ ':' :: (d2 ++ ':' :: ' ' ::
      (sev.data ++ ':' :: ' ' :: c :: (d3 ++ ' ' :: msg))))
      ∈ (colonSplits line).reverse := by
    rw [List.mem_reverse, heq']
    exact colonSplits_complete _ _
  exact findSome?_isSome_of_mem hmem (by rw [if_pos hdot]; exact htail)

/-- Every diagnostic of `parseOutput` is `mkDiagnostic` of a successful
match of some stdout line. -/
theorem mem_parseOutput {s : String} {d : Diagnostic}
    (hd : d ∈ parseOutput s) :
    ∃ (line : List Char) (m : IssueMatch), line ∈ splitLines s.data ∧
      matchLine line = some m ∧ d = mkDiagnostic m := by
  rw [parseOutput, List.mem_flatten] at hd
  obtain ⟨ds, hds, hdin⟩ := hd
  obtain ⟨line, hline, rfl⟩ := List.mem_map.mp hds
  rw [lineDiagnostics] at hdin
  split at hdin
  · next m hm =>
    rw [List.mem_singleton] at hdin
    exact ⟨line, m, hline, hm, hdin⟩
  · cases hdin

/-! ## Claims about the output parser -/

/-- Claim C1: parsing the single report line
`src/dev.py:10:4: warning: T023 Attribute 'foo' needs 'description'` with
the default configuration yields exactly one diagnostic whose severity is
Warning, whose range starts at 0-based line 9 and column 4, whose code is
"T023", and whose message is `T023: Attribute 'foo' needs 'description'`. -/
theorem c1_end_to_end_report_line :
    parseOutput "src/dev.py:10:4: warning: T023 Attribute 'foo' needs 'description'" =
      [{ startLine := 9, startCol := 4, endLine := 9, endCol := 9999,
         severity := .warning,
         message := "T023: Attribute 'foo' needs 'description'",
         source := "tangolint", code := "T023" }] := by decide

/-- Claim C2: every line of the input that does not match the fixed line
grammar contributes zero diagnostics (the parser, a total function, raises
no error), and an input with no matching lines yields the empty diagnostic
list. -/
theorem c2_nonmatching_lines_yield_no_diagnostics :
    (∀ line : List Char, ¬ MatchesGrammar line → lineDiagnostics line = []) ∧
    (∀ stdout : String,
      (∀ line ∈ splitLines stdout.data, ¬ MatchesGrammar line) →
      parseOutput stdout = []) := by
  have hline : ∀ line : List Char, ¬ MatchesGrammar line →
      lineDiagnostics line = [] := by
    intro l hng
    rw [lineDiagnostics]
    split
    · next m hm => exact absurd (matchLine_sound hm).1 hng
    · rfl
  refine ⟨hline, fun s hs => ?_⟩
  rw [parseOutput, List.flatten_eq_nil_iff]
  intro ds hds
  obtain ⟨line, hl, rfl⟩ := List.mem_map.mp hds
  exact hline line (hs line hl)

theorem c2_witness : parseOutput "✓ No issues found" = [] := by
  have hnone : ∀ line ∈ splitLines ("✓ No issues found").data,
      matchLine line = none := by decide
  refine c2_nonmatching_lines_yield_no_diagnostics.2 _ fun line hl hm => ?_
  have hs := matchLine_complete hm
  rw [hnone line hl] at hs
  simp at hs

/-- The analyzer code vocabulary: one uppercase letter followed by at least
one digit (`[A-Z]\d+`). -/
def codeVocabOk (s : String) : Prop :=
  ∃ (c : Char) (ds : List Char),
    s.data = c :: ds ∧ isUpperChar c = true ∧ ds ≠ [] ∧ ds.all isDigitChar = true

/-- Claim C3: every diagnostic produced by the output parser has a code
matching one uppercase letter followed by digits, source "tangolint", a
range on a single line with a non-negative 0-based line number and a
non-negative start column, and end column equal to the sentinel 9999;
the 0-based line is the reported line minus one (clamped to be
non-negative, like the column). -/
theorem c3_diagnostic_invariants :
    (∀ stdout : String, ∀ d ∈ parseOutput stdout,
      codeVocabOk d.code ∧ d.source = "tangolint" ∧ d.startLine = d.endLine ∧
      0 ≤ d.startLine ∧ 0 ≤ d.startCol ∧ d.endCol = 9999) ∧
    (∀ m : IssueMatch,
      (mkDiagnostic m).startLine = max 0 ((digitsToNat m.lineStr : Int) - 1) ∧
      (mkDiagnostic m).startCol = max 0 ((digitsToNat m.colStr : Int))) := by
  constructor
  · intro stdout d hd
    obtain ⟨line, m, _, hm, rfl⟩ := mem_parseOutput hd
    obtain ⟨_, _, _, _, _, _, hup, hcdne, hcdall, _, _⟩ := matchLine_sound hm
    exact ⟨⟨m.codeHead, m.codeDigits, rfl, hup, hcdne, hcdall⟩, rfl, rfl,
      le_max_left 0 _, le_max_left 0 _, rfl⟩
  · exact fun m => ⟨rfl, rfl⟩

def c3WitnessDiag : Diagnostic :=
  { startLine := 2, startCol := 0, endLine := 2, endCol := 9999,
    severity := .error, message := "G001: bare except clause",
    source := "tangolint", code := "G001" }

theorem c3_witness :
    c3WitnessDiag ∈ parseOutput "dev.py:3:0: error: G001 bare except clause" ∧
    (codeVocabOk c3WitnessDiag.code ∧ c3WitnessDiag.source = "tangolint" ∧
      c3WitnessDiag.startLine = c3WitnessDiag.endLine ∧
      0 ≤ c3WitnessDiag.startLine ∧ 0 ≤ c3WitnessDiag.startCol ∧
      c3WitnessDiag.endCol = 9999) :=
  ⟨by decide,
   c3_diagnostic_invariants.1 "dev.py:3:0: error: G001 bare except clause"
     c3WitnessDiag (by decide)⟩

/-- Claim C10: the 1-based-to-0-based line conversion is clamped at zero
like the column: a matched report line whose line field is 0 produces a
diagnostic at 0-based line 0 rather than -1, and no parsed diagnostic ever
carries a negative line number. -/
theorem c10_line_conversion_clamped :
    (∀ (line : List Char) (m : IssueMatch), matchLine line = some m →
      digitsToNat m.lineStr = 0 → (mkDiagnostic m).startLine = 0) ∧
    (∀ stdout : String, ∀ d ∈ parseOutput stdout, 0 ≤ d.startLine) := by
  constructor
  · intro line m _ h0
    show max 0 ((digitsToNat m.lineStr : Int) - 1) = 0
    rw [h0]
    decide
  · intro s d hd
    obtain ⟨line, m, _, hm, rfl⟩ := mem_parseOutput hd
    exact le_max_left 0 _

def c10WitnessMatch : IssueMatch :=
  { lineStr := ['0'], colStr := ['4'], severity := "warning",
    codeHead := 'T', codeDigits := ['0', '2', '3'],
    message := ['m', 's', 'g'] }

theorem c10_witness :
    (mkDiagnostic c10WitnessMatch).startLine = 0 ∧
    0 ≤ (mkDiagnostic c10WitnessMatch).startLine :=
  ⟨c10_line_conversion_clamped.1 ("a.py:0:4: warning: T023 msg".data)
      c10WitnessMatch (by decide) (by decide),
   c10_line_conversion_clamped.2 "a.py:0:4: warning: T023 msg"
      (mkDiagnostic c10WitnessMatch) (by decide)⟩

/-! ## Rule-configuration mapper

`ALL_RULE_CODES` and `getDisabledRules` from `extension.js`, plus the
`--disable` argument construction from `lintDocument`. -/

/-- `ALL_RULE_CODES` (`extension.js`): the fixed rule registry. -/
def ALL_RULE_CODES : List String :=
  ["T001", "T010", "T011", "T020", "T021", "T022", "T023", "T024", "T025",
   "T030", "T031", "T032",
   "G001", "G002", "G003", "G004", "G005", "G006", "G007", "G008"]

/-- The per-rule boolean settings: a key is mapped to `some b` when it is
explicitly configured and to `none` when absent. -/
abbrev RuleSettings : Type := String → Option Bool

/-- `cfg.get(key, default)` for a boolean setting. -/
def cfgGetBool (rs : RuleSettings) (key : String) (dflt : Bool) : Bool :=
  match rs key with
  | some b => b
  | none => dflt

/-- `getDisabledRules` (`extension.js`): the registry codes whose
`rules.<code>` setting is strictly `false`. -/
def getDisabledRules (rs : RuleSettings) : List String :=
  ALL_RULE_CODES.filter fun code =>
    cfgGetBool rs ("rules." ++ code) true == false

/-- `getDisabledRules().flatMap(code => ['--disable', code])` from
`lintDocument` (`extension.js`). -/
def disabledArgs (rs : RuleSettings) : List String :=
  (getDisabledRules rs).flatMap fun code => ["--disable", code]

/-- The rule-configuration mapper as the spec words it (§4.2): walk the
fixed registry in order and emit one suppression pair per disabled rule,
nothing for enabled rules.  Stated independently of `getDisabledRules` so
that agreement with the code is a theorem. -/
def ruleMapperSpec (rs : RuleSettings) : List String :=
  (ALL_RULE_CODES.map fun code =>
    if cfgGetBool rs ("rules." ++ code) true = false then ["--disable", code]
    else []).flatten

theorem filter_flatMap_eq_map_flatten {α β : Type} (p : α → Bool)
    (f : α → List β) (L : List α) :
    (L.filter p).flatMap f =
      (L.map fun c => if p c = true then f c else []).flatten := by
  induction L with
  | nil => rfl
  | cons a L ih =>
    cases hp : p a <;>
      simp [List.filter_cons, hp, ih]

/-- Claim C4: for every per-rule boolean configuration (absent entries
defaulting to enabled), the mapper produces exactly one `--disable <code>`
pair per disabled rule, the pairs appear in registry order, no arguments
are produced for enabled rules, and the result is a pure function of the
configuration (it is a Lean function of `rs` alone). -/
theorem c4_rule_mapper (rs : RuleSettings) :
    disabledArgs rs = ruleMapperSpec rs ∧
    (∀ code, code ∈ getDisabledRules rs ↔
      code ∈ ALL_RULE_CODES ∧ cfgGetBool rs ("rules." ++ code) true = false) := by
  constructor
  · rw [disabledArgs, getDisabledRules, ruleMapperSpec,
      filter_flatMap_eq_map_flatten]
    simp only [beq_iff_eq]
  · intro code
    simp [getDisabledRules, List.mem_filter]

/-! ## Linter-path resolution

`findLinterPath` (`extension.js`).  `fs.existsSync` is a parameter
`fsExists`; the `tangolint.linterPath` setting, the module-level
`deployedLinterPath` and the workspace folder of the document are the
remaining parameters. -/

/-- The whitespace class removed by JavaScript `String.prototype.trim`
(restricted to the characters that occur in practice: ASCII whitespace and
NBSP). -/
def isJsSpace (c : Char) : Bool :=
  c = ' ' || c = '\t' || c = '\n' || c = '\r' ||
  c = '\u000b' || c = '\u000c' || c = '\u00a0'

/-- `s.trim()`. -/
def jsTrim (s : String) : String :=
  String.mk (((s.data.dropWhile isJsSpace).reverse.dropWhile isJsSpace).reverse)

/-- `path.join(a, b)` for a simple two-component join (separator
normalization is not modelled; no claim depends on it). -/
def pathJoin (a b : String) : String := a ++ "/" ++ b

/-- `findLinterPath` (`extension.js`): configured setting first, then the
deployed copy, then the legacy workspace-root fallback, each guarded by
`fs.existsSync`; `null` when nothing is found. -/
def findLinterPath (fsExists : String → Bool) (cfgLinterPath : String)
    (deployed : Option String) (wsFolder : Option String) : Option String :=
  let configured := jsTrim cfgLinterPath
  let legacy : Option String :=
    match wsFolder with
    | some w =>
      if fsExists (pathJoin w "tangolint.py") then
        some (pathJoin w "tangolint.py")
      else none
    | none => none
  if configured ≠ "" ∧ fsExists configured then some configured
  else
    match deployed with
    | some dp => if dp ≠ "" ∧ fsExists dp then some dp else legacy
    | none => legacy

/-- The candidate entry-points in search order: the configured path (when
set to a non-empty string), the deployed copy (when present and
non-empty), the workspace-root fallback (when a workspace folder exists). -/
def linterCandidates (cfgLinterPath : String) (deployed : Option String)
    (wsFolder : Option String) : List String :=
  (if jsTrim cfgLinterPath ≠ "" then [jsTrim cfgLinterPath] else []) ++
  (match deployed with
   | some dp => if dp ≠ "" then [dp] else []
   | none => []) ++
  (match wsFolder with
   | some w => [pathJoin w "tangolint.py"]
   | none => [])

/-- Filesystem state of the Claim C5 counterexample: only the legacy
workspace-root candidate exists. -/
def c5Fs : String → Bool := fun s => s == "/ws/tangolint.py"

/-- Claim C5, counterexample: with no configured path and a deployed copy
that does not exist on disk ("neither exists"), resolution does not report
unresolved — the legacy workspace-root fallback is returned instead. -/
theorem c5_counterexample :
    jsTrim "" = "" ∧
    c5Fs "/storage/tangolint.py" = false ∧
    findLinterPath c5Fs "" (some "/storage/tangolint.py") (some "/ws") =
      some "/ws/tangolint.py" := by decide

/-- Claim C5 (amended): the resolver tries, in order, the configured path,
the bundled/deployed copy, and the legacy workspace-root `tangolint.py`,
and returns the first candidate that exists on disk, with no merging; when
the configured path exists it wins even if the bundled copy also exists;
when only the bundled copy exists it is returned; when no candidate
exists, resolution reports unresolved (null). -/
theorem c5_resolver_precedence (fsE : String → Bool) (cfg : String)
    (deployed : Option String) (ws : Option String) :
    findLinterPath fsE cfg deployed ws =
      (linterCandidates cfg deployed ws).find? fsE ∧
    (jsTrim cfg ≠ "" → fsE (jsTrim cfg) = true →
      findLinterPath fsE cfg deployed ws = some (jsTrim cfg)) ∧
    (∀ dp, deployed = some dp → dp ≠ "" → fsE dp = true →
      (jsTrim cfg = "" ∨ fsE (jsTrim cfg) = false) →
      findLinterPath fsE cfg deployed ws = some dp) ∧
    ((∀ cand ∈ linterCandidates cfg deployed ws, fsE cand = false) →
      findLinterPath fsE cfg deployed ws = none) := by
  have hmain : findLinterPath fsE cfg deployed ws =
      (linterCandidates cfg deployed ws).find? fsE := by
    rcases deployed with _ | dp
    · rcases ws with _ | w <;>
        by_cases h1 : jsTrim cfg = "" <;> by_cases h2 : fsE (jsTrim cfg) <;>
        simp [findLinterPath, linterCandidates, h1, h2, List.find?] <;>
        cases fsE (pathJoin w "tangolint.py") <;> rfl
    · rcases ws with _ | w <;>
        by_cases h1 : jsTrim cfg = "" <;> by_cases h2 : fsE (jsTrim cfg) <;>
        by_cases h3 : dp = "" <;> by_cases h4 : fsE dp <;>
        simp [findLinterPath, linterCandidates, h1, h2, h3, h4, List.find?] <;>
        cases fsE (pathJoin w "tangolint.py") <;> rfl
  refine ⟨hmain, ?_, ?_, ?_⟩
  · intro hne hex
    simp [findLinterPath, hne, hex]
  · intro dp hdp hne hex hcfg
    subst hdp
    rcases hcfg with hc | hc <;> simp [findLinterPath, hc, hne, hex]
  · intro hall
    rw [hmain, List.find?_eq_none]
    intro x hx
    simp [hall x hx]

def c5FsA : String → Bool := fun s => s == "/cfg/tangolint.py"

def c5FsB : String → Bool := fun s => s == "/storage/tangolint.py"

def c5FsC : String → Bool := fun _ => false

theorem c5_witness :
    findLinterPath c5FsA " /cfg/tangolint.py " (some "/storage/tangolint.py")
        (some "/ws") = some "/cfg/tangolint.py" ∧
    findLinterPath c5FsB "" (some "/storage/tangolint.py") (some "/ws") =
      some "/storage/tangolint.py" ∧
    findLinterPath c5FsC "" (some "/storage/tangolint.py") (some "/ws") =
      none :=
  ⟨by
      have h := (c5_resolver_precedence c5FsA " /cfg/tangolint.py "
        (some "/storage/tangolint.py") (some "/ws")).2.1 (by decide) (by decide)
      simpa using h,
   (c5_resolver_precedence c5FsB "" (some "/storage/tangolint.py")
      (some "/ws")).2.2.1 "/storage/tangolint.py" rfl (by decide) (by decide)
      (Or.inl (by decide)),
   (c5_resolver_precedence c5FsC "" (some "/storage/tangolint.py")
      (some "/ws")).2.2.2 (by decide)⟩

/-! ## Lint runner

The mutable module state of `extension.js` (`diagnosticCollection`,
`statusBarItem`) is modelled as an explicit `LintState`; `lintDocument` is
split into its synchronous part (`lintDocumentStart`, up to `cp.execFile`)
and the completion callback (`lintCompletion`).  Spawning is represented by
returning the would-be command line. -/

structure Document where
  uri : String
  scheme : String
  languageId : String
  fsPath : String
deriving DecidableEq

/-- The status bar item: hidden, spinning, showing counts, or showing the
error alert with its tooltip message. -/
inductive BarStatus where
  | hidden
  | running
  | done (errors warnings : Nat)
  | errored (firstLine : String)
deriving DecidableEq

/-- The `DiagnosticCollection`: an association of document URIs to their
current diagnostic sets. -/
abbrev DiagStore : Type := List (String × List Diagnostic)

/-- `diagnosticCollection.delete(uri)`. -/
def storeErase (st : DiagStore) (uri : String) : DiagStore :=
  st.filter fun e => e.1 ≠ uri

/-- `diagnosticCollection.set(uri, diagnostics)`: wholesale replacement. -/
def storeSet (st : DiagStore) (uri : String) (ds : List Diagnostic) :
    DiagStore :=
  storeErase st uri ++ [(uri, ds)]

structure LintState where
  store : DiagStore
  status : BarStatus
deriving DecidableEq

/-- The environment a lint run reads: filesystem, settings, the deployed
script path, the workspace folder per URI, and the Python extension's
execution details (already reduced to its first command token, or `none`
when the extension is unavailable or its API shape changed — the
try/catch). -/
structure Env where
  fsExists : String → Bool
  cfgLinterPath : String
  cfgPythonPath : String
  ruleSettings : RuleSettings
  deployed : Option String
  wsFolderOf : String → Option String
  pythonExtExec : Option String

/-- `getPythonPath` (`extension.js`): the configured interpreter when set,
else the Python extension's interpreter, else `python3`. -/
def getPythonPath (env : Env) : String :=
  if jsTrim env.cfgPythonPath ≠ "" then jsTrim env.cfgPythonPath
  else
    match env.pythonExtExec with
    | some exe => exe
    | none => "python3"

/-- A `cp.execFile` invocation: the interpreter and its argument list. -/
structure SpawnRequest where
  cmd : String
  args : List String
deriving DecidableEq

def countSeverity (ds : List Diagnostic) (sev : DiagnosticSeverity) : Nat :=
  (ds.filter fun d => d.severity == sev).length

/-- `statusDone` (`extension.js`): the error/warning counts shown in the
status bar (the three display variants are a function of these counts). -/
def statusDone (diagnostics : List Diagnostic) : BarStatus :=
  .done (countSeverity diagnostics .error)
    (countSeverity diagnostics .warning)

/-- `s.split('\n')[0]`. -/
def firstLine (s : String) : String :=
  String.mk ((splitLines s.data).headD [])

/-- The synchronous part of `lintDocument` (`extension.js`): the
file/python filter, resolution and the fail-silent clear, then the spawn of
`<python> <linterPath> --no-color [--disable <code>]* <filePath>` together
with `statusRunning()`. -/
def lintDocumentStart (env : Env) (doc : Document) (s : LintState) :
    LintState × Option SpawnRequest :=
  if doc.scheme ≠ "file" ∨ doc.languageId ≠ "python" then (s, none)
  else
    match findLinterPath env.fsExists env.cfgLinterPath env.deployed
        (env.wsFolderOf doc.uri) with
    | none => ({ s with store := storeErase s.store doc.uri }, none)
    | some lp =>
      ({ s with status := .running },
       some { cmd := getPythonPath env,
              args := [lp, "--no-color"] ++ disabledArgs env.ruleSettings ++
                [doc.fsPath] })

/-- The `cp.execFile` completion callback of `lintDocument`
(`extension.js`): when `stderr && stderr.trim()` is truthy, log, show the
error status with the first line of the trimmed stderr and return early
(the store is untouched); otherwise parse stdout, replace the document's
diagnostics and show the counts.  The `err` argument is ignored by the
code (non-zero exit is expected) and therefore not modelled. -/
def lintCompletion (doc : Document) (stdout stderr : String)
    (s : LintState) : LintState :=
  if stderr ≠ "" ∧ jsTrim stderr ≠ "" then
    { s with status := .errored (firstLine (jsTrim stderr)) }
  else
    { store := storeSet s.store doc.uri (parseOutput stdout),
      status := statusDone (parseOutput stdout) }

/-- Claim C6: for an eligible document for which entry-point resolution is
unresolved, the lint run deletes the stored diagnostics for that
document's identity and stops: no subprocess is launched and the status
indicator is left unchanged. -/
theorem c6_unresolved_clears_and_stops (env : Env) (doc : Document)
    (s : LintState)
    (hs : doc.scheme = "file") (hl : doc.languageId = "python")
    (hfind : findLinterPath env.fsExists env.cfgLinterPath env.deployed
      (env.wsFolderOf doc.uri) = none) :
    lintDocumentStart env doc s =
      ({ store := storeErase s.store doc.uri, status := s.status }, none) := by
  have hne : ¬ (doc.scheme ≠ "file" ∨ doc.languageId ≠ "python") := by
    simp [hs, hl]
  rw [lintDocumentStart, if_neg hne, hfind]

def c6Env : Env :=
  { fsExists := fun _ => false, cfgLinterPath := "", cfgPythonPath := "",
    ruleSettings := fun _ => none, deployed := none,
    wsFolderOf := fun _ => none, pythonExtExec := none }

def c6Doc : Document :=
  { uri := "file:///a.py", scheme := "file", languageId := "python",
    fsPath := "/a.py" }

theorem c6_witness :
    lintDocumentStart c6Env c6Doc
        { store := [("file:///a.py", [])], status := .hidden } =
      ({ store := [], status := .hidden }, none) :=
  (c6_unresolved_clears_and_stops c6Env c6Doc
    { store := [("file:///a.py", [])], status := .hidden }
    rfl rfl (by decide)).trans (by decide)

def sampleDiag : Diagnostic :=
  { startLine := 0, startCol := 0, endLine := 0, endCol := 9999,
    severity := .warning, message := "T020: docstring missing",
    source := "tangolint", code := "T020" }

def c7Doc : Document :=
  { uri := "file:///dev.py", scheme := "file", languageId := "python",
    fsPath := "/dev.py" }

def c7State : LintState :=
  { store := [("file:///dev.py", [sampleDiag])], status := .hidden }

/-- Claim C7, counterexample: a completed run whose stderr is the single
space " " — non-empty text on the error stream, but blank after trimming —
does not set the error status and does not leave the diagnostic store as
it was: the document's entry is replaced by the parse of stdout (here the
empty set). -/
theorem c7_counterexample :
    (" " : String) ≠ "" ∧
    (lintCompletion c7Doc "" " " c7State).store = [("file:///dev.py", [])] ∧
    (lintCompletion c7Doc "" " " c7State).store ≠ c7State.store ∧
    (lintCompletion c7Doc "" " " c7State).status = statusDone [] := by decide

/-- Claim C7 (amended): whenever a completed subprocess produced
error-stream text that is non-empty after trimming whitespace, the
completion handler sets the error status carrying the first line of the
trimmed error text and leaves the diagnostic store exactly as it was,
regardless of what was written to stdout. -/
theorem c7_stderr_error_path (doc : Document) (stdout stderr : String)
    (s : LintState) (h : jsTrim stderr ≠ "") :
    lintCompletion doc stdout stderr s =
      { store := s.store, status := .errored (firstLine (jsTrim stderr)) } := by
  have hne : stderr ≠ "" := by
    intro he
    subst he
    exact h rfl
  rw [lintCompletion, if_pos ⟨hne, h⟩]

theorem c7_witness :
    lintCompletion c7Doc "out" "Traceback: boom\nmore" c7State =
      { store := [("file:///dev.py", [sampleDiag])],
        status := .errored "Traceback: boom" } :=
  (c7_stderr_error_path c7Doc "out" "Traceback: boom\nmore" c7State
    (by decide)).trans (by decide)

/-! ## Debounce machinery

`debounceTimers` (`extension.js`) is a map from document-URI strings to
pending timers.  The model makes time explicit: the state holds, per key,
the absolute time at which its pending timer fires, plus the runs
dispatched so far; events arrive in time order, and advancing time to an
event's arrival first fires every timer whose deadline has passed. -/

inductive DocEvent where
  | change (key : String)
  | close (key : String)
deriving DecidableEq

structure DebounceState where
  pending : List (String × Nat)
  runs : List (Nat × String)
deriving DecidableEq

/-- Advance time to `t`: every pending timer whose deadline has passed
fires, dispatching its run (`lintDocument`) and deleting its key from the
table, as the `setTimeout` callback does. -/
def fireDue (t : Nat) (s : DebounceState) : DebounceState :=
  { pending := s.pending.filter fun p => decide (t < p.2),
    runs := s.runs ++ (s.pending.filter fun p => decide (p.2 ≤ t)).map
      fun p => (p.2, p.1) }

/-- The `onDidChangeTextDocument` debounce body and the
`onDidCloseTextDocument` cleanup (`extension.js`): a change event clears
any pending timer for its key (`clearTimeout`) and schedules a new one
600 ms out; a close clears the key's pending timer without firing it. -/
def debounceStep (s : DebounceState) : Nat × DocEvent → DebounceState
  | (t, .change k) =>
    let s' := fireDue t s
    { s' with pending := (s'.pending.filter fun p => p.1 != k) ++ [(k, t + 600)] }
  | (t, .close k) =>
    let s' := fireDue t s
    { s' with pending := s'.pending.filter fun p => p.1 != k }

def debounceRun (evs : List (Nat × DocEvent)) : DebounceState :=
  evs.foldl debounceStep { pending := [], runs := [] }

/-- All runs an event sequence eventually dispatches: those dispatched
while the events arrive, plus every timer still pending afterwards, firing
at its deadline. -/
def dispatchedRuns (evs : List (Nat × DocEvent)) : List (Nat × String) :=
  (debounceRun evs).runs ++ (debounceRun evs).pending.map fun p => (p.2, p.1)

def changesOf (k : String) (times : List Nat) : List (Nat × DocEvent) :=
  times.map fun t => (t, .change k)

theorem changesOf_cons (k : String) (t : Nat) (ts : List Nat) :
    changesOf k (t :: ts) = (t, DocEvent.change k) :: changesOf k ts := rfl

/-- One change event while the key's timer is pending and not yet due:
the old timer is cancelled and replaced by a fresh 600 ms one. -/
theorem debounceStep_change_pending {k : String} {t0 t1 : Nat}
    (h : t1 < t0 + 600) (R : List (Nat × String)) :
    debounceStep ⟨[(k, t0 + 600)], R⟩ (t1, .change k) =
      ⟨[(k, t1 + 600)], R⟩ := by
  have hn : ¬ (t0 + 600 ≤ t1) := by omega
  simp [debounceStep, fireDue, List.filter, decide_eq_true_eq, h, hn]

/-- One change event after the key's timer has come due: the pending run
fires first, then a fresh timer is scheduled. -/
theorem debounceStep_change_fired {k : String} {t0 t1 : Nat}
    (h : t0 + 600 ≤ t1) (R : List (Nat × String)) :
    debounceStep ⟨[(k, t0 + 600)], R⟩ (t1, .change k) =
      ⟨[(k, t1 + 600)], R ++ [(t0 + 600, k)]⟩ := by
  have hn : ¬ (t1 < t0 + 600) := by omega
  simp [debounceStep, fireDue, List.filter, decide_eq_true_eq, h, hn]

/-- Closing while the key's timer is pending and not yet due cancels the
timer without dispatching anything. -/
theorem debounceStep_close_pending {k : String} {d tc : Nat}
    (h : tc < d) (R : List (Nat × String)) :
    debounceStep ⟨[(k, d)], R⟩ (tc, .close k) = ⟨[], R⟩ := by
  have hn : ¬ (d ≤ tc) := by omega
  simp [debounceStep, fireDue, List.filter, decide_eq_true_eq, h, hn]

theorem debounce_within_aux (k : String) :
    ∀ (times : List Nat) (t0 : Nat) (R : List (Nat × String)),
      List.Chain (fun a b => a < b ∧ b < a + 600) t0 times →
      (changesOf k times).foldl debounceStep ⟨[(k, t0 + 600)], R⟩ =
        ⟨[(k, times.getLastD t0 + 600)], R⟩ := by
  intro times
  induction times with
  | nil => intro t0 R _; rfl
  | cons t1 rest ih =>
    intro t0 R h
    rw [List.chain_cons] at h
    obtain ⟨⟨_, hlt⟩, hchain⟩ := h
    rw [changesOf, List.map_cons, List.foldl_cons,
      debounceStep_change_pending hlt, List.getLastD_cons]
    exact ih t1 R hchain

theorem debounce_beyond_aux (k : String) :
    ∀ (times : List Nat) (t0 : Nat) (R : List (Nat × String)),
      List.Chain (fun a b => a + 600 < b) t0 times →
      (changesOf k times).foldl debounceStep ⟨[(k, t0 + 600)], R⟩ =
        ⟨[(k, times.getLastD t0 + 600)],
         R ++ (t0 :: times).dropLast.map fun t => (t + 600, k)⟩ := by
  intro times
  induction times with
  | nil => intro t0 R _; simp [changesOf]
  | cons t1 rest ih =>
    intro t0 R h
    rw [List.chain_cons] at h
    obtain ⟨hgt, hchain⟩ := h
    rw [changesOf_cons, List.foldl_cons,
      debounceStep_change_fired (by omega), List.getLastD_cons]
    refine (ih t1 (R ++ [(t0 + 600, k)]) hchain).trans ?_
    simp

theorem map_dropLast_append_last {α : Type} (f : Nat → α) :
    ∀ (times : List Nat) (t : Nat),
      (t :: times).dropLast.map f ++ [f (times.getLastD t)] =
        (t :: times).map f := by
  intro times
  induction times with
  | nil => intro t; rfl
  | cons t1 rest ih =>
    intro t
    rw [List.getLastD_cons, List.dropLast_cons₂, List.map_cons,
      List.cons_append, ih t1, List.map_cons]
    rfl

/-- Claim C8: the change-trigger debounce is a per-key timer with a 600 ms
quiescence window.  (1) N ≥ 1 change events for one document, each within
600 ms of its predecessor, dispatch exactly one run, which fires 600 ms
after the last event.  (2) N change events each spaced more than 600 ms
apart dispatch N runs, one 600 ms after each event.  (3) Closing the
document while a timer from such a burst is pending cancels it, and it
never fires. -/
theorem c8_debounce :
    (∀ (k : String) (t : Nat) (times : List Nat),
      List.Chain (fun a b => a < b ∧ b < a + 600) t times →
      dispatchedRuns (changesOf k (t :: times)) =
        [(times.getLastD t + 600, k)]) ∧
    (∀ (k : String) (t : Nat) (times : List Nat),
      List.Chain (fun a b => a + 600 < b) t times →
      dispatchedRuns (changesOf k (t :: times)) =
        (t :: times).map fun u => (u + 600, k)) ∧
    (∀ (k : String) (t : Nat) (times : List Nat) (tc : Nat),
      List.Chain (fun a b => a < b ∧ b < a + 600) t times →
      tc < times.getLastD t + 600 →
      dispatchedRuns (changesOf k (t :: times) ++ [(tc, .close k)]) = []) := by
  have hfirst : ∀ (k : String) (t : Nat) (rest : List (Nat × DocEvent)),
      debounceRun ((t, DocEvent.change k) :: rest) =
        rest.foldl debounceStep ⟨[(k, t + 600)], []⟩ := by
    intro k t rest
    rw [debounceRun, List.foldl_cons]
    rfl
  refine ⟨?_, ?_, ?_⟩
  · intro k t times h
    rw [dispatchedRuns, changesOf_cons, hfirst,
      debounce_within_aux k times t [] h]
    rfl
  · intro k t times h
    rw [dispatchedRuns, changesOf_cons, hfirst,
      debounce_beyond_aux k times t [] h]
    simpa using map_dropLast_append_last (fun u => (u + 600, k)) times t
  · intro k t times tc h htc
    rw [dispatchedRuns, changesOf_cons, List.cons_append, debounceRun,
      List.foldl_cons, List.foldl_append]
    have hrun : (changesOf k times).foldl debounceStep
        (debounceStep ⟨[], []⟩ (t, DocEvent.change k)) =
        ⟨[(k, times.getLastD t + 600)], []⟩ := by
      rw [show debounceStep ⟨[], []⟩ (t, DocEvent.change k) =
        (⟨[(k, t + 600)], []⟩ : DebounceState) from rfl]
      exact debounce_within_aux k times t [] h
    rw [hrun, show ([(tc, DocEvent.close k)] : List (Nat × DocEvent)).foldl
        debounceStep ⟨[(k, times.getLastD t + 600)], []⟩ =
        debounceStep ⟨[(k, times.getLastD t + 600)], []⟩
          (tc, DocEvent.close k) from rfl,
      debounceStep_close_pending htc]
    rfl

theorem c8_witness :
    dispatchedRuns (changesOf "file:///a.py" [0, 100, 200]) =
      [(800, "file:///a.py")] ∧
    dispatchedRuns (changesOf "file:///a.py" [0, 700]) =
      [(600, "file:///a.py"), (1300, "file:///a.py")] ∧
    dispatchedRuns (changesOf "file:///a.py" [0] ++
      [(300, DocEvent.close "file:///a.py")]) = [] :=
  ⟨(c8_debounce.1 "file:///a.py" 0 [100, 200]
      (by simp [List.chain_cons])).trans (by decide),
   (c8_debounce.2.1 "file:///a.py" 0 [700]
      (by simp [List.chain_cons])).trans (by decide),
   c8_debounce.2.2 "file:///a.py" 0 [] 300 List.Chain.nil (by decide)⟩

/-! ## Trigger filtering and the reachable-store invariant

The event subscriptions of `activate` (`extension.js`) all funnel into
`lintDocument`: open, save, manual invoke and the startup replay call it
directly, and a change event's debounce timer calls it when it fires.  A
completed subprocess invokes `lintCompletion`; closing a document deletes
its store entry.  The transition system below replays any sequence of
those events; a completion is only possible for a document with a launched
run in flight. -/

inductive PipelineAction where
  | runTrigger (doc : Document)
  | complete (doc : Document) (stdout stderr : String)
  | closeDoc (doc : Document)

structure PipelineState where
  ls : LintState
  inflight : List Document

def pipelineInit : PipelineState :=
  { ls := { store := [], status := .hidden }, inflight := [] }

def pipelineStep (env : Env) (s : PipelineState) :
    PipelineAction → PipelineState
  | .runTrigger doc =>
    { ls := (lintDocumentStart env doc s.ls).1,
      inflight := s.inflight ++
        (match (lintDocumentStart env doc s.ls).2 with
         | some _ => [doc]
         | none => []) }
  | .complete doc stdout stderr =>
    if doc ∈ s.inflight then
      { ls := lintCompletion doc stdout stderr s.ls,
        inflight := s.inflight.erase doc }
    else s
  | .closeDoc doc =>
    { ls := { store := storeErase s.ls.store doc.uri, status := s.ls.status },
      inflight := s.inflight }

def pipelineReach (env : Env) (actions : List PipelineAction) : PipelineState :=
  actions.foldl (pipelineStep env) pipelineInit

/-- The eligibility filter of `lintDocument`: a saved Python file. -/
def Eligible (doc : Document) : Prop :=
  doc.scheme = "file" ∧ doc.languageId = "python"

instance (doc : Document) : Decidable (Eligible doc) := by
  rw [Eligible]; infer_instance

/-- The open-document universe: in the host editor a URI denotes one open
document whose scheme and language are fixed attributes of that document,
so a universe is a map from URI strings to attribute records.  An action
is consistent with the universe when the record a trigger carries is the
universe's record for its URI; completions and closes need no condition of
their own, because a completion only takes effect for a record that is
already in flight. -/
def DocConsistent (docs : String → Document) : PipelineAction → Prop
  | .runTrigger doc => docs doc.uri = doc
  | .complete _ _ _ => True
  | .closeDoc _ => True

instance (docs : String → Document) :
    (a : PipelineAction) → Decidable (DocConsistent docs a)
  | .runTrigger doc => inferInstanceAs (Decidable (docs doc.uri = doc))
  | .complete _ _ _ => inferInstanceAs (Decidable True)
  | .closeDoc _ => inferInstanceAs (Decidable True)

/-- Every run in flight is for an eligible document and carries the
universe's record for its URI, and every store entry's URI denotes an
eligible document of the universe.  The store half is falsifiable: a state
whose store holds an entry for a URI that the universe maps to an untitled
or non-Python document violates it. -/
def StoreInv (docs : String → Document) (s : PipelineState) : Prop :=
  (∀ d ∈ s.inflight, Eligible d ∧ docs d.uri = d) ∧
  (∀ e ∈ s.ls.store, Eligible (docs e.1))

theorem lintDocumentStart_ineligible (env : Env) (doc : Document)
    (s : LintState) (h : ¬ Eligible doc) :
    lintDocumentStart env doc s = (s, none) := by
  have hc : doc.scheme ≠ "file" ∨ doc.languageId ≠ "python" := by
    by_contra hcc
    push_neg at hcc
    exact h ⟨hcc.1, hcc.2⟩
  rw [lintDocumentStart, if_pos hc]

theorem lintDocumentStart_store_sub (env : Env) (doc : Document)
    (s : LintState) :
    ∀ e ∈ (lintDocumentStart env doc s).1.store, e ∈ s.store := by
  rw [lintDocumentStart]
  split
  · exact fun e he => he
  · split
    · intro e he
      dsimp only at he
      rw [storeErase, List.mem_filter] at he
      exact he.1
    · exact fun e he => he

theorem lintCompletion_store_mem (doc : Document) (stdout stderr : String)
    (s : LintState) :
    ∀ e ∈ (lintCompletion doc stdout stderr s).store,
      e ∈ s.store ∨ e.1 = doc.uri := by
  rw [lintCompletion]
  split
  · exact fun e he => Or.inl he
  · intro e he
    rw [storeSet, List.mem_append] at he
    rcases he with he | he
    · rw [storeErase, List.mem_filter] at he
      exact Or.inl he.1
    · rw [List.mem_singleton] at he
      subst he
      exact Or.inr rfl

theorem pipelineStep_inv (env : Env) (docs : String → Document)
    {s : PipelineState} (hs : StoreInv docs s) (a : PipelineAction)
    (hcons : DocConsistent docs a) :
    StoreInv docs (pipelineStep env s a) := by
  cases a with
  | runTrigger doc =>
    constructor
    · intro d hd
      rw [pipelineStep] at hd
      dsimp only at hd
      rw [List.mem_append] at hd
      rcases hd with hd | hd
      · exact hs.1 d hd
      · by_cases he : Eligible doc
        · split at hd
          · rw [List.mem_singleton] at hd
            subst hd
            exact ⟨he, hcons⟩
          · cases hd
        · rw [lintDocumentStart_ineligible env doc s.ls he] at hd
          cases hd
    · intro e he
      rw [pipelineStep] at he
      dsimp only at he
      exact hs.2 e (lintDocumentStart_store_sub env doc s.ls e he)
  | complete doc stdout stderr =>
    rw [pipelineStep]
    split
    · next hin =>
      constructor
      · intro d hd
        dsimp only at hd
        exact hs.1 d (List.mem_of_mem_erase hd)
      · intro e he
        dsimp only at he
        rcases lintCompletion_store_mem doc stdout stderr s.ls e he with h | h
        · exact hs.2 e h
        · obtain ⟨hel, hduri⟩ := hs.1 doc hin
          rw [h, hduri]
          exact hel
    · exact hs
  | closeDoc doc =>
    constructor
    · exact hs.1
    · intro e he
      dsimp only [pipelineStep] at he
      rw [storeErase, List.mem_filter] at he
      exact hs.2 e he.1

/-- Claim C9: a document whose storage scheme is not a real file or whose
content type is not Python is ignored silently — `lintDocument` (reached
from every trigger: open, save, manual, startup, and a firing debounce
timer) changes nothing and launches no subprocess for it — and
consequently, for every open-document universe and every consistent event
sequence, every reachable pipeline state has runs in flight only for
eligible documents and diagnostic-store entries only for URIs that the
universe maps to file-scheme Python documents. -/
theorem c9_ineligible_documents_ignored :
    (∀ (env : Env) (doc : Document) (s : LintState), ¬ Eligible doc →
      lintDocumentStart env doc s = (s, none)) ∧
    (∀ (env : Env) (docs : String → Document)
      (actions : List PipelineAction),
      (∀ a ∈ actions, DocConsistent docs a) →
      StoreInv docs (pipelineReach env actions)) := by
  constructor
  · exact lintDocumentStart_ineligible
  · intro env docs actions hcons
    have hinit : StoreInv docs pipelineInit := by
      constructor
      · intro d hd
        cases hd
      · intro e he
        cases he
    rw [pipelineReach]
    have hfold : ∀ (l : List PipelineAction) (s : PipelineState),
        (∀ a ∈ l, DocConsistent docs a) → StoreInv docs s →
        StoreInv docs (l.foldl (pipelineStep env) s) := by
      intro l
      induction l with
      | nil => exact fun s _ hs => hs
      | cons a l ih =>
        intro s hc hs
        exact ih _ (fun b hb => hc b (List.mem_cons_of_mem a hb))
          (pipelineStep_inv env docs hs a (hc a (List.mem_cons_self a l)))
    exact hfold actions _ hcons hinit

def c9Doc : Document :=
  { uri := "untitled:Untitled-1", scheme := "untitled",
    languageId := "python", fsPath := "" }

/-- The Claim C9 witness universe: `file:///a.py` is an open Python file
and every other URI is an untitled Python buffer. -/
def c9Docs : String → Document := fun u =>
  if u = "file:///a.py" then c6Doc else c9Doc

theorem c9_witness :
    lintDocumentStart c6Env c9Doc { store := [], status := .hidden } =
      ({ store := [], status := .hidden }, none) ∧
    StoreInv c9Docs (pipelineReach c6Env
      [.runTrigger c9Doc, .runTrigger c6Doc,
       .complete c6Doc "x" "", .closeDoc c6Doc]) :=
  ⟨c9_ineligible_documents_ignored.1 c6Env c9Doc
      { store := [], status := .hidden } (by decide),
   c9_ineligible_documents_ignored.2 c6Env c9Docs
      [.runTrigger c9Doc, .runTrigger c6Doc,
       .complete c6Doc "x" "", .closeDoc c6Doc] (by decide)⟩

end Tangolint
